import Mathlib

/-!
Shallow embedding of `gfsbuddy.py`: a date-classification engine that walks an
ordered registry of named, enableable (predicate, message) rules and prints the
message of the first enabled rule whose predicate holds for the input date.

Dates are modelled as proleptic-Gregorian year/month/day triples (Python's
`datetime` restricted to the fields and operations the program uses: `.year`,
`.month`, `.day`, `.weekday()`, and addition/subtraction of `timedelta` days
and weeks, modelled by stepping one day at a time).
-/

/-- A calendar date: the year/month/day fields of a Python `datetime`.
Time-of-day is never consulted by any predicate or formatter, so it is
omitted. -/
structure Date where
  year : Nat
  month : Nat
  day : Nat
  deriving DecidableEq, Repr

/-- Gregorian leap-year test, as in Python's `calendar.isleap`. -/
def isLeap (y : Nat) : Bool :=
  y % 4 == 0 && (y % 100 != 0 || y % 400 == 0)

/-- Number of days in month `m` of year `y` (months numbered 1..12). -/
def daysInMonth (y m : Nat) : Nat :=
  if m == 2 then (if isLeap y then 29 else 28)
  else if m == 4 || m == 6 || m == 9 || m == 11 then 30
  else 31

/-- Days in all years before year `y` (proleptic Gregorian, year 1 first). -/
def daysBeforeYear (y : Nat) : Nat :=
  365 * (y - 1) + (y - 1) / 4 - (y - 1) / 100 + (y - 1) / 400

/-- Days in the months of year `y` strictly before month `m`. -/
def daysBeforeMonth (y : Nat) : Nat → Nat
  | 0 => 0
  | 1 => 0
  | m + 2 => daysBeforeMonth y (m + 1) + daysInMonth y (m + 1)

/-- Python's `date.toordinal`: 0001-01-01 is day 1. -/
def toOrdinal (d : Date) : Nat :=
  daysBeforeYear d.year + daysBeforeMonth d.year d.month + d.day

/-- Python's `date.weekday()`: Monday = 0 .. Sunday = 6.
0001-01-01 (ordinal 1) is a Monday in the proleptic Gregorian calendar. -/
def Date.weekday (d : Date) : Nat :=
  (toOrdinal d - 1) % 7

/-- The calendar successor of a date. -/
def nextDay (d : Date) : Date :=
  if d.day < daysInMonth d.year d.month then ⟨d.year, d.month, d.day + 1⟩
  else if d.month < 12 then ⟨d.year, d.month + 1, 1⟩
  else ⟨d.year + 1, 1, 1⟩

/-- The calendar predecessor of a date. -/
def prevDay (d : Date) : Date :=
  if 1 < d.day then ⟨d.year, d.month, d.day - 1⟩
  else if 1 < d.month then ⟨d.year, d.month - 1, daysInMonth d.year (d.month - 1)⟩
  else ⟨d.year - 1, 12, 31⟩

/-- Python's `d + timedelta(days=n)`. -/
def addDays (d : Date) : Nat → Date
  | 0 => d
  | n + 1 => nextDay (addDays d n)

/-- Python's `d - timedelta(days=n)`. -/
def subDays (d : Date) : Nat → Date
  | 0 => d
  | n + 1 => prevDay (subDays d n)

/-- A well-formed calendar date: fields in range for the Gregorian calendar. -/
def Date.Valid (d : Date) : Prop :=
  1 ≤ d.year ∧ 1 ≤ d.month ∧ d.month ≤ 12 ∧ 1 ≤ d.day ∧ d.day ≤ daysInMonth d.year d.month

instance (d : Date) : Decidable d.Valid := by
  unfold Date.Valid; infer_instance

/-- English weekday names indexed by Python weekday number (Monday = 0). -/
def dayName (w : Nat) : String :=
  match w with
  | 0 => "Monday"
  | 1 => "Tuesday"
  | 2 => "Wednesday"
  | 3 => "Thursday"
  | 4 => "Friday"
  | 5 => "Saturday"
  | _ => "Sunday"

/-- English month names indexed 1..12. -/
def monthName (m : Nat) : String :=
  match m with
  | 1 => "January"
  | 2 => "February"
  | 3 => "March"
  | 4 => "April"
  | 5 => "May"
  | 6 => "June"
  | 7 => "July"
  | 8 => "August"
  | 9 => "September"
  | 10 => "October"
  | 11 => "November"
  | _ => "December"

/-- Zero-padded two-digit decimal rendering. -/
def pad2 (n : Nat) : String :=
  if n < 10 then "0" ++ toString n else toString n

/-- One `strftime` directive: the expansion of `%c` for date `d`. Directives
not used by the program (and not needed by any claim) pass through unchanged,
matching the common C-library behaviour for unknown directives. -/
def strftimeDirective (d : Date) (c : Char) : String :=
  match c with
  | 'A' => dayName d.weekday
  | 'a' => (dayName d.weekday).take 3
  | 'B' => monthName d.month
  | 'b' => (monthName d.month).take 3
  | 'd' => pad2 d.day
  | 'm' => pad2 d.month
  | 'Y' => toString d.year
  | '%' => "%"
  | c => String.mk ['%', c]

/-- `strftime` scanner over the template's characters. -/
def strftimeAux (d : Date) : List Char → List Char
  | '%' :: c :: rest => (strftimeDirective d c).data ++ strftimeAux d rest
  | c :: rest => c :: strftimeAux d rest
  | [] => []

/-- Python's `d.strftime(fmt)` restricted to the directives above. -/
def strftime (d : Date) (fmt : String) : String :=
  String.mk (strftimeAux d fmt.data)

/-!
Python values. The program is duck-typed: `TimeMap.__init__` accepts any
values for `name` and `message` and asserts only that `check` is callable;
`TimeMap.__call__` dispatches on whether `message` is callable, a `str`, or
something else. We model the Python values the program can meet with a small
universe: `None`, booleans, integers, strings, date-to-bool callables (the
predicates) and date-to-string callables (computed messages).
-/

/-- A Python value, restricted to the types the program manipulates. -/
inductive PyVal where
  | noneV : PyVal
  | boolV (b : Bool) : PyVal
  | intV (n : Int) : PyVal
  | strV (s : String) : PyVal
  | funcV (f : Date → Bool) : PyVal
  | strFuncV (f : Date → String) : PyVal

/-- Python's `hasattr(v, '__call__')`. -/
def PyVal.isCallable : PyVal → Bool
  | .funcV _ => true
  | .strFuncV _ => true
  | _ => false

/-- Calling a Python value on a date: `v(d)`. `none` signals the `TypeError`
Python raises when the value is not callable. -/
def PyVal.applyTo : PyVal → Date → Option PyVal
  | .funcV f, d => some (.boolV (f d))
  | .strFuncV f, d => some (.strV (f d))
  | _, _ => none

/-- Python truthiness of a value, as used by `if self.check(val):`. -/
def PyVal.truthy : PyVal → Bool
  | .noneV => false
  | .boolV b => b
  | .intV n => n != 0
  | .strV s => !s.isEmpty
  | .funcV _ => true
  | .strFuncV _ => true

/-- Python `==` between two values. `True == 1` holds in Python (bool is a
subtype of int); values of unrelated types compare unequal. Function objects
compare by identity in Python; distinct lambda objects are never equal, which
we model as `false`. -/
def pyEq : PyVal → PyVal → Bool
  | .noneV, .noneV => true
  | .boolV a, .boolV b => a == b
  | .intV a, .intV b => a == b
  | .boolV a, .intV b => (if a then (1 : Int) else 0) == b
  | .intV a, .boolV b => a == (if b then (1 : Int) else 0)
  | .strV a, .strV b => a == b
  | _, _ => false

/-- Python `str(v)`. The textual form of a function object is irrelevant to
the program (it is never printed); a placeholder is used. -/
def PyVal.pyStr : PyVal → String
  | .noneV => "None"
  | .boolV b => if b then "True" else "False"
  | .intV n => toString n
  | .strV s => s
  | .funcV _ => "<function>"
  | .strFuncV _ => "<function>"

/-- Python `datetime == int` comparison, as in the `last-day-of-financial-year`
lambda `(t + timedelta(days=1)) == 7`: `datetime.__eq__` returns
`NotImplemented` for a non-datetime operand, `int.__eq__` likewise, so Python
falls back to identity and the comparison is `False` for every date and
integer. -/
def pyDateEqInt (_ : Date) (_ : Nat) : Bool := false

/-!
`%J` substitution and message rendering (`TimeMap.__call__`, lines 87-93).
-/

/-- The week-of-month count inlined at line 90 of the source:
`len([x for x in range(0,5) if val.month == (val - timedelta(weeks=x)).month])`. -/
def weekOfMonthCount (val : Date) : Nat :=
  (List.filter (fun x => val.month == (subDays val (7 * x)).month) (List.range 5)).length

/-- Python `'%J' in message`: does the character list contain the two-character
token `%J`? -/
def containsJ : List Char → Bool
  | '%' :: 'J' :: _ => true
  | _ :: rest => containsJ rest
  | [] => false

/-- Python `message.replace('%J', sub)`: replace every (left-to-right,
non-overlapping) occurrence of `%J`. -/
def replaceJ (sub : String) : List Char → List Char
  | '%' :: 'J' :: rest => sub.data ++ replaceJ sub rest
  | c :: rest => c :: replaceJ sub rest
  | [] => []

/-- The message dispatch of `TimeMap.__call__` (lines 87-93): a callable
message is invoked with the date and its result printed; a string message gets
`%J` substituted (when present) and is then passed through `strftime`; any
other message is printed via `str(...)`. -/
def renderMessage (message : PyVal) (val : Date) : String :=
  match message with
  | .strFuncV f => f val
  | .funcV f => PyVal.pyStr (.boolV (f val))
  | .strV s =>
      strftime val (String.mk
        (if containsJ s.data then replaceJ (toString (weekOfMonthCount val)) s.data else s.data))
  | m => m.pyStr

/-!
The `TimeMap` class: registry, registration and the evaluation engine.
`TimeMap.Instances` (a class-level mutable list) is modelled as an explicit
`List TimeMap` threaded through the operations.
-/

/-- One rule: the four fields set by `TimeMap.__init__`. `name` and `message`
are arbitrary Python values (the constructor never checks their types). -/
structure TimeMap where
  name : PyVal
  message : PyVal
  check : PyVal
  enabled : Bool

/-- The registration loop of `TimeMap.__init__` (lines 73-78): replace the
first instance with an equal name in place, otherwise append at the end. -/
def registerInto : List TimeMap → TimeMap → List TimeMap
  | [], tm => [tm]
  | inst :: rest, tm =>
      if pyEq inst.name tm.name then tm :: rest else inst :: registerInto rest tm

/-- `TimeMap.__init__`: assert the check is callable (an `AssertionError`,
modelled as `none`, otherwise), then construct the rule and register it. -/
def TimeMap.init (insts : List TimeMap) (name message check : PyVal)
    (enabled : Bool := false) : Option (List TimeMap) :=
  if check.isCallable then some (registerInto insts ⟨name, message, check, enabled⟩)
  else none

/-- `TimeMap.by_name`: first instance whose name equals the given string,
`none` when absent. -/
def by_name (insts : List TimeMap) (name : String) : Option TimeMap :=
  insts.find? (fun inst => pyEq inst.name (.strV name))

/-- The `TimeMap.by_name(n).enabled = True` mutations of the main block:
set the `enabled` field of the first instance with the given name. -/
def enableByName : List TimeMap → String → List TimeMap
  | [], _ => []
  | inst :: rest, n =>
      if pyEq inst.name (.strV n) then { inst with enabled := true } :: rest
      else inst :: enableByName rest n

/-- `TimeMap.__call__` (lines 83-95). Returns the boolean result together with
the list of lines printed (empty or a singleton); `none` models the
`TypeError` raised when a non-callable check is applied. -/
def TimeMap.call (tm : TimeMap) (val : Date) : Option (Bool × List String) :=
  if !tm.enabled then some (false, [])
  else
    match tm.check.applyTo val with
    | none => none
    | some r =>
        if r.truthy then some (true, [renderMessage tm.message val])
        else some (false, [])

/-- The inner run loop (lines 164-166): walk the instances in order, stop at
the first one whose call returns true; collect everything printed. -/
def runDate (insts : List TimeMap) (val : Date) : Option (List String) :=
  match insts with
  | [] => some []
  | tm :: rest =>
      match tm.call val with
      | none => none
      | some (true, out) => some out
      | some (false, out) => (runDate rest val).map (fun more => out ++ more)

/-- The outer run loop (line 163): one `runDate` per input date, outputs
concatenated in input order. -/
def runAll (insts : List TimeMap) : List Date → Option (List String)
  | [] => some []
  | d :: ds => (runDate insts d).bind (fun out => (runAll insts ds).map (fun more => out ++ more))

/-- Does the rule's check hold (truthily) for the date? -/
def checkTruthy (tm : TimeMap) (val : Date) : Bool :=
  match tm.check.applyTo val with
  | some r => r.truthy
  | none => false

/-- An enabled rule whose check holds: the condition under which
`TimeMap.__call__` prints and returns `True`. -/
def ruleMatches (tm : TimeMap) (val : Date) : Bool :=
  tm.enabled && checkTruthy tm val

/-- Every rule's check is callable: guaranteed for any registry built through
`TimeMap.init`, whose assertion rejects non-callable checks. -/
def allCallable (insts : List TimeMap) : Bool :=
  insts.all (fun tm => tm.check.isCallable)

/-!
The module-level instances (source lines 108-121): the fourteen shipped rules,
registered in source order, every check a lambda over the date.
-/

def check_last_workday_of_financial_year (t : Date) : Bool :=
  t.weekday == 4 && t.month == 6 && (addDays t 7).month == 7

def check_last_workday_of_year (t : Date) : Bool :=
  t.weekday == 4 && t.year != (addDays t 7).year

def check_last_workday_of_month (t : Date) : Bool :=
  t.weekday == 4 && t.month != (addDays t 7).month

def check_last_workday_of_week (t : Date) : Bool :=
  t.weekday == 4

def check_workday (t : Date) : Bool :=
  t.weekday == 0 || t.weekday == 1 || t.weekday == 2 || t.weekday == 3 || t.weekday == 4

def check_last_day_of_week (t : Date) : Bool :=
  t.weekday == 5

def check_last_day_of_month (t : Date) : Bool :=
  t.month != (addDays t 1).month

def check_last_day_of_year (t : Date) : Bool :=
  t.year != (addDays t 1).year

/-- The lambda of line 116 as written: `t.month == 6 and (t + timedelta(days=1)) == 7`
compares the datetime `t + timedelta(days=1)` with the integer `7`. -/
def check_last_day_of_financial_year (t : Date) : Bool :=
  t.month == 6 && pyDateEqInt (addDays t 1) 7

def check_first_day_of_week (t : Date) : Bool :=
  t.weekday == 6

def check_first_day_of_month (t : Date) : Bool :=
  t.day == 1

def check_first_day_of_year (t : Date) : Bool :=
  t.day == 1 && t.month == 1

def check_first_day_of_financial_year (t : Date) : Bool :=
  t.day == 1 && t.month == 7

def check_day (_ : Date) : Bool :=
  true

/-- The fourteen `TimeMap(...)` constructor calls of lines 108-121, in source
order, each one registering through `TimeMap.init` (all enabled flags default
to `False`). `none` would signal a failed constructor assertion. -/
def moduleInit : Option (List TimeMap) :=
  (TimeMap.init [] (.strV "last-workday-of-financial-year") (.strV "End of Financial Year")
      (.funcV check_last_workday_of_financial_year)).bind fun r =>
  (TimeMap.init r (.strV "last-workday-of-year") (.strV "End of Year")
      (.funcV check_last_workday_of_year)).bind fun r =>
  (TimeMap.init r (.strV "last-workday-of-month") (.strV "End of Month")
      (.funcV check_last_workday_of_month)).bind fun r =>
  (TimeMap.init r (.strV "last-workday-of-week") (.strV "%A %J")
      (.funcV check_last_workday_of_week)).bind fun r =>
  (TimeMap.init r (.strV "workday") (.strV "%A")
      (.funcV check_workday)).bind fun r =>
  (TimeMap.init r (.strV "last-day-of-week") (.strV "Last Day of Week")
      (.funcV check_last_day_of_week)).bind fun r =>
  (TimeMap.init r (.strV "last-day-of-month") (.strV "Last Day of Month")
      (.funcV check_last_day_of_month)).bind fun r =>
  (TimeMap.init r (.strV "last-day-of-year") (.strV "Last Day of Year")
      (.funcV check_last_day_of_year)).bind fun r =>
  (TimeMap.init r (.strV "last-day-of-financial-year") (.strV "Last Day of Financial Year")
      (.funcV check_last_day_of_financial_year)).bind fun r =>
  (TimeMap.init r (.strV "first-day-of-week") (.strV "First Day of Week")
      (.funcV check_first_day_of_week)).bind fun r =>
  (TimeMap.init r (.strV "first-day-of-month") (.strV "First Day of Month")
      (.funcV check_first_day_of_month)).bind fun r =>
  (TimeMap.init r (.strV "first-day-of-year") (.strV "First Day of Year")
      (.funcV check_first_day_of_year)).bind fun r =>
  (TimeMap.init r (.strV "first-day-of-financial-year") (.strV "First Day of Financial Year")
      (.funcV check_first_day_of_financial_year)).bind fun r =>
  TimeMap.init r (.strV "day") (.strV "%A") (.funcV check_day)

/-- `TimeMap.Instances` after module initialization. -/
def Instances : List TimeMap :=
  moduleInit.getD []

/-- `TimeMap.Instances` after the legacy enable block of `__main__`
(lines 136-140): the five legacy rules switched on, in source order, no
command-line flags passed. -/
def mainInstances : List TimeMap :=
  enableByName (enableByName (enableByName (enableByName (enableByName Instances
    "last-workday-of-financial-year") "last-workday-of-year") "last-workday-of-month")
    "last-workday-of-week") "workday"

/-!
Spec-side definitions, written from the spec's words, to compare with the
definitions embedded from the source.
-/

/-- The spec's week-of-month count: "count = number of `w` in {0,1,2,3,4} such
that `date.month == (date - w weeks).month`". -/
def weekCountSpec (val : Date) : Nat :=
  ((Finset.range 5).filter (fun w => val.month = (subDays val (7 * w)).month)).card

/-- The spec's intended semantics for `last-day-of-financial-year`:
"date.month == 6 AND (date + 1 day) month == 7". -/
def lastDayOfFinancialYearIntended (t : Date) : Bool :=
  t.month == 6 && (addDays t 1).month == 7

/-!
Concrete sample rules used to instantiate the general theorems below.
-/

def ruleA : TimeMap := ⟨.strV "A", .strV "Message A", .funcV check_day, false⟩

def ruleB : TimeMap := ⟨.strV "B", .strV "Message B", .funcV check_workday, false⟩

def ruleC : TimeMap := ⟨.strV "C", .strV "Message C", .funcV check_last_day_of_week, false⟩

/-- A re-registration of the name `B` with a new message. -/
def ruleB2 : TimeMap := ⟨.strV "B", .strV "Message B2", .funcV check_first_day_of_month, true⟩

/-!
Calendar arithmetic lemmas: a valid date stays valid under `nextDay`, and
`toOrdinal` advances by one, hence `addDays` shifts the ordinal and the
weekday as expected.
-/

theorem isLeap_iff (y : Nat) :
    isLeap y = true ↔ (y % 4 = 0 ∧ (y % 100 ≠ 0 ∨ y % 400 = 0)) := by
  simp [isLeap]

set_option maxHeartbeats 1600000 in
theorem daysBeforeYear_succ (y : Nat) (hy : 1 ≤ y) :
    daysBeforeYear (y + 1) = daysBeforeYear y + 365 + (if isLeap y then 1 else 0) := by
  cases hL : isLeap y
  · have hc : ¬ (y % 4 = 0 ∧ (y % 100 ≠ 0 ∨ y % 400 = 0)) := by
      rw [← isLeap_iff, hL]; exact Bool.false_ne_true
    simp only [Bool.false_eq_true, if_false]
    unfold daysBeforeYear
    simp only [Nat.add_sub_cancel]
    by_cases h4 : y % 4 = 0 <;> by_cases h100 : y % 100 = 0 <;> by_cases h400 : y % 400 = 0
    · exact absurd ⟨h4, Or.inr h400⟩ hc
    · omega
    · exact absurd ⟨h4, Or.inl h100⟩ hc
    · exact absurd ⟨h4, Or.inl h100⟩ hc
    · omega
    · omega
    · omega
    · omega
  · have hc : y % 4 = 0 ∧ (y % 100 ≠ 0 ∨ y % 400 = 0) := (isLeap_iff y).mp hL
    simp only [if_true]
    unfold daysBeforeYear
    simp only [Nat.add_sub_cancel]
    obtain ⟨h4, hor⟩ := hc
    rcases hor with h | h <;> omega

theorem daysInMonth_pos (y m : Nat) : 1 ≤ daysInMonth y m := by
  unfold daysInMonth
  split_ifs <;> omega

theorem daysBeforeMonth_succ (y m : Nat) (h : 1 ≤ m) :
    daysBeforeMonth y (m + 1) = daysBeforeMonth y m + daysInMonth y m := by
  match m, h with
  | n + 1, _ => rfl

theorem daysBeforeMonth_twelve (y : Nat) :
    daysBeforeMonth y 12 = 334 + (if isLeap y then 1 else 0) := by
  by_cases h : isLeap y <;>
    simp [daysBeforeMonth, daysInMonth, h]

theorem valid_nextDay {d : Date} (h : d.Valid) : (nextDay d).Valid := by
  obtain ⟨hy, hm1, hm2, hd1, hd2⟩ := h
  unfold nextDay
  split_ifs with h1 h2
  · exact ⟨hy, hm1, hm2, by dsimp only; omega, by dsimp only; omega⟩
  · exact ⟨hy, by dsimp only; omega, by dsimp only; omega, le_refl 1, daysInMonth_pos _ _⟩
  · exact ⟨by dsimp only; omega, by dsimp only; omega, by dsimp only; omega, le_refl 1,
      daysInMonth_pos _ _⟩

theorem toOrdinal_nextDay {d : Date} (h : d.Valid) :
    toOrdinal (nextDay d) = toOrdinal d + 1 := by
  obtain ⟨hy, hm1, hm2, hd1, hd2⟩ := h
  unfold nextDay toOrdinal
  split_ifs with h1 h2
  · dsimp only
    omega
  · have hday : d.day = daysInMonth d.year d.month := by omega
    have hstep := daysBeforeMonth_succ d.year d.month hm1
    dsimp only
    omega
  · have hm12 : d.month = 12 := by omega
    rw [hm12] at hd2 h1
    have hdim : daysInMonth d.year 12 = 31 := rfl
    rw [hdim] at hd2 h1
    have hday : d.day = 31 := by omega
    have hyear := daysBeforeYear_succ d.year hy
    have h12 := daysBeforeMonth_twelve d.year
    have h1' : daysBeforeMonth (d.year + 1) 1 = 0 := rfl
    dsimp only
    rw [hm12, hday, h1', hyear, h12]
    split_ifs <;> omega

theorem toOrdinal_addDays {d : Date} (h : d.Valid) (n : Nat) :
    (addDays d n).Valid ∧ toOrdinal (addDays d n) = toOrdinal d + n := by
  induction n with
  | zero => exact ⟨h, rfl⟩
  | succ n ih =>
      refine ⟨valid_nextDay ih.1, ?_⟩
      show toOrdinal (nextDay (addDays d n)) = toOrdinal d + (n + 1)
      rw [toOrdinal_nextDay ih.1, ih.2]
      omega

theorem toOrdinal_pos {d : Date} (h : d.Valid) : 1 ≤ toOrdinal d := by
  have hd := h.2.2.2.1
  unfold toOrdinal
  omega

theorem weekday_lt {d : Date} : d.weekday < 7 := by
  unfold Date.weekday
  omega

theorem weekday_addDays {d : Date} (h : d.Valid) (n : Nat) :
    (addDays d n).weekday = (d.weekday + n) % 7 := by
  have h2 := toOrdinal_addDays h n
  have h1 : 1 ≤ toOrdinal d := toOrdinal_pos h
  unfold Date.weekday
  rw [h2.2]
  omega

theorem natBeq_eq_decide (a b : Nat) : (a == b) = decide (a = b) := by
  by_cases h : a = b <;> simp [h]

theorem filter_range_card (p : Nat → Prop) [DecidablePred p] (n : Nat) :
    ((Finset.range n).filter p).card =
      (List.filter (fun x => decide (p x)) (List.range n)).length := by
  induction n with
  | zero => rfl
  | succ n ih =>
      rw [Finset.range_succ, Finset.filter_insert, List.range_succ, List.filter_append]
      by_cases h : p n
      · rw [if_pos h, Finset.card_insert_of_not_mem (fun hmem => absurd (Finset.mem_range.mp
          (Finset.mem_filter.mp hmem).1) (lt_irrefl n)), ih]
        simp [h]
      · rw [if_neg h, ih]
        simp [h]

theorem weekOfMonthCount_eq_spec (v : Date) : weekOfMonthCount v = weekCountSpec v := by
  unfold weekOfMonthCount weekCountSpec
  rw [filter_range_card]
  simp only [natBeq_eq_decide]

theorem applyTo_of_isCallable (v : PyVal) (d : Date) (h : v.isCallable = true) :
    ∃ r, v.applyTo d = some r := by
  cases v <;> simp [PyVal.isCallable] at h <;> simp [PyVal.applyTo]

/-!
Claim theorems.
-/

/-- C3: a rule whose `enabled` field is false produces no output and returns
false for every date, and its behaviour is independent of its predicate: the
`if not self.enabled: return False` short-circuit fires before the predicate
could be evaluated. -/
theorem claim_c3_disabled_rule_inert (name message check checkB : PyVal) (val : Date) :
    TimeMap.call ⟨name, message, check, false⟩ val = some (false, []) ∧
    TimeMap.call ⟨name, message, check, false⟩ val =
      TimeMap.call ⟨name, message, checkB, false⟩ val := by
  exact ⟨rfl, rfl⟩

/-- C5: the `last-day-of-financial-year` predicate as written compares the
date `t + timedelta(days=1)` with the integer 7, so it returns false for every
date; the spec's intended predicate is true on 2023-06-30, where the written
one is false. -/
theorem claim_c5_last_day_fy_always_false :
    (∀ t : Date, check_last_day_of_financial_year t = false) ∧
    lastDayOfFinancialYearIntended ⟨2023, 6, 30⟩ = true ∧
    check_last_day_of_financial_year ⟨2023, 6, 30⟩ = false := by
  refine ⟨fun t => ?_, by decide, by decide⟩
  simp [check_last_day_of_financial_year, pyDateEqInt]

/-- C7: a callable message is invoked with the matched date and its return
value emitted verbatim (no `%J` substitution, no `strftime`); a non-callable,
non-string message is emitted via its natural string representation. The last
two conjuncts show on a concrete date that the string `"%J %A"` is formatted
when it is a template but emitted untouched when a callable returns it. -/
theorem claim_c7_message_dispatch (f : Date → String) (g : Date → Bool) (n : Int) (b : Bool)
    (val : Date) :
    renderMessage (.strFuncV f) val = f val ∧
    renderMessage (.funcV g) val = PyVal.pyStr (.boolV (g val)) ∧
    renderMessage (.intV n) val = toString n ∧
    renderMessage (.boolV b) val = (if b then "True" else "False") ∧
    renderMessage .noneV val = "None" ∧
    renderMessage (.strFuncV (fun _ => "%J %A")) val = "%J %A" ∧
    renderMessage (.strV "%J %A") ⟨2023, 6, 2⟩ = "1 Friday" := by
  exact ⟨rfl, rfl, rfl, rfl, rfl, rfl, by decide⟩

/-- C8: `TimeMap.__init__` fails exactly when the supplied predicate is not
callable, whatever the types of `name` and `message`; registration always
succeeds for the two callable shapes. -/
theorem claim_c8_registration_assert (insts : List TimeMap) (name message check : PyVal)
    (enabled : Bool) :
    (TimeMap.init insts name message check enabled).isSome = check.isCallable ∧
    (∀ f : Date → Bool, (TimeMap.init insts name message (.funcV f) enabled).isSome = true) ∧
    (∀ f : Date → String,
      (TimeMap.init insts name message (.strFuncV f) enabled).isSome = true) := by
  refine ⟨?_, fun f => rfl, fun f => rfl⟩
  unfold TimeMap.init
  cases hc : check.isCallable <;> simp [hc]

/-- C10: the `%J` week-of-month count is always between 1 and 5: offset 0
always stays within the month and only the five offsets 0..4 are examined; so
the substituted string is one of "1".."5". -/
theorem claim_c10_count_range (val : Date) :
    1 ≤ weekOfMonthCount val ∧ weekOfMonthCount val ≤ 5 ∧
    toString (weekOfMonthCount val) ∈ ["1", "2", "3", "4", "5"] := by
  have hz : (0 : Nat) ∈ List.filter
      (fun x => val.month == (subDays val (7 * x)).month) (List.range 5) := by
    refine List.mem_filter.mpr ⟨?_, ?_⟩
    · simp
    · simp [subDays]
  have h1 : 1 ≤ weekOfMonthCount val := by
    unfold weekOfMonthCount
    exact List.length_pos.mpr (List.ne_nil_of_mem hz)
  have h5 : weekOfMonthCount val ≤ 5 := by
    unfold weekOfMonthCount
    have := List.length_filter_le
      (fun x => val.month == (subDays val (7 * x)).month) (List.range 5)
    simpa using this
  refine ⟨h1, h5, ?_⟩
  set c := weekOfMonthCount val with hc
  interval_cases c <;> decide

/-- C9: with the legacy default-enabled subset and the shipped registry order,
the single input date Friday 2023-06-30 emits exactly the line
"End of Financial Year" — the first-registered enabled matching rule — even
though last-workday-of-month, last-workday-of-week and workday also match;
module registration itself succeeds. -/
theorem claim_c9_end_to_end :
    runDate mainInstances ⟨2023, 6, 30⟩ = some ["End of Financial Year"] ∧
    moduleInit = some Instances ∧
    ((by_name mainInstances "last-workday-of-month").map
        (fun tm => ruleMatches tm ⟨2023, 6, 30⟩)) = some true ∧
    ((by_name mainInstances "last-workday-of-week").map
        (fun tm => ruleMatches tm ⟨2023, 6, 30⟩)) = some true ∧
    ((by_name mainInstances "workday").map
        (fun tm => ruleMatches tm ⟨2023, 6, 30⟩)) = some true := by
  refine ⟨by decide, rfl, by decide, by decide, by decide⟩

/-- C2: registering a fresh name appends at the end; registering an existing
name replaces that rule at the same ordinal position (first occurrence) rather
than appending; in particular registering A, B, C and then re-registering B
yields iteration order A, B(new), C. -/
theorem claim_c2_register_replace_in_place :
    (∀ (insts : List TimeMap) (tm : TimeMap),
      (∀ inst ∈ insts, pyEq inst.name tm.name = false) →
      registerInto insts tm = insts ++ [tm]) ∧
    (∀ (l1 l2 : List TimeMap) (old tm : TimeMap),
      (∀ inst ∈ l1, pyEq inst.name tm.name = false) →
      pyEq old.name tm.name = true →
      registerInto (l1 ++ old :: l2) tm = l1 ++ tm :: l2) ∧
    (∀ a b c bNew : TimeMap,
      pyEq a.name b.name = false → pyEq a.name c.name = false →
      pyEq a.name bNew.name = false → pyEq b.name c.name = false →
      pyEq b.name bNew.name = true →
      registerInto (registerInto (registerInto (registerInto [] a) b) c) bNew =
        [a, bNew, c]) := by
  refine ⟨?_, ?_, ?_⟩
  · intro insts tm hfresh
    induction insts with
    | nil => rfl
    | cons inst rest ih =>
        have h1 : pyEq inst.name tm.name = false := hfresh inst (List.mem_cons_self _ _)
        have h2 := ih (fun i hi => hfresh i (List.mem_cons_of_mem _ hi))
        simp [registerInto, h1, h2]
  · intro l1 l2 old tm hfresh hold
    induction l1 with
    | nil => simp [registerInto, hold]
    | cons inst rest ih =>
        have h1 : pyEq inst.name tm.name = false := hfresh inst (List.mem_cons_self _ _)
        have h2 := ih (fun i hi => hfresh i (List.mem_cons_of_mem _ hi))
        simp [registerInto, h1]
        simpa using h2
  · intro a b c bNew hab hac habN hbc hbbN
    simp [registerInto, hab, hac, habN, hbc, hbbN]

/-- Witness for C2 at concrete rules named "A", "B", "C" and a re-registered
"B". -/
theorem claim_c2_witness :
    registerInto (registerInto (registerInto (registerInto [] ruleA) ruleB) ruleC) ruleB2 =
      [ruleA, ruleB2, ruleC] :=
  claim_c2_register_replace_in_place.2.2 ruleA ruleB ruleC ruleB2
    (by decide) (by decide) (by decide) (by decide) (by decide)

/-- C4: for a string template containing `%J`, the formatter replaces every
occurrence of `%J` with the decimal string of the count of offsets
w ∈ {0,..,4} with `date.month == (date - w weeks).month` before applying
`strftime`; the inline count agrees with the spec's count formula, is 1 on a
first Friday (2023-06-02) and 5 on a fifth Friday (2023-03-31), and every
occurrence is replaced. -/
theorem claim_c4_percent_j (s : String) (val : Date)
    (hJ : containsJ s.data = true) :
    renderMessage (.strV s) val =
      strftime val (String.mk (replaceJ (toString (weekOfMonthCount val)) s.data)) ∧
    (∀ v : Date, weekOfMonthCount v = weekCountSpec v) ∧
    weekOfMonthCount ⟨2023, 6, 2⟩ = 1 ∧
    weekOfMonthCount ⟨2023, 3, 31⟩ = 5 ∧
    renderMessage (.strV "Tape %J, week %J") ⟨2023, 6, 2⟩ = "Tape 1, week 1" := by
  refine ⟨?_, weekOfMonthCount_eq_spec, by decide, by decide, by decide⟩
  simp [renderMessage, hJ]

/-- Witness for C4 at the template "Tape %J" and the date 2023-06-02. -/
theorem claim_c4_witness :
    containsJ ("Tape %J").data = true ∧
    renderMessage (.strV "Tape %J") ⟨2023, 6, 2⟩ =
      strftime ⟨2023, 6, 2⟩ (String.mk (replaceJ (toString (weekOfMonthCount ⟨2023, 6, 2⟩))
        ("Tape %J").data)) :=
  ⟨by decide, (claim_c4_percent_j "Tape %J" ⟨2023, 6, 2⟩ (by decide)).1⟩

/-- C6: the `last-workday-of-month` predicate holds exactly for a Friday whose
date seven days later falls in a different month; for a valid date the date
seven days later has the same weekday (so it is the next Friday), making the
predicate true for the last Friday of a month (2023-06-30) and false for a
Friday followed by another Friday in the same month (2023-06-23, also a
Friday, whose +7 day stays in June). -/
theorem claim_c6_last_workday_of_month (t : Date) (hv : t.Valid) :
    (check_last_workday_of_month t = true ↔
      t.weekday = 4 ∧ t.month ≠ (addDays t 7).month) ∧
    (addDays t 7).weekday = t.weekday ∧
    check_last_workday_of_month ⟨2023, 6, 30⟩ = true ∧
    check_last_workday_of_month ⟨2023, 6, 23⟩ = false ∧
    Date.weekday ⟨2023, 6, 23⟩ = 4 ∧
    (addDays ⟨2023, 6, 23⟩ 7).month = 6 := by
  refine ⟨?_, ?_, by decide, by decide, by decide, by decide⟩
  · simp [check_last_workday_of_month, Bool.and_eq_true, beq_iff_eq, bne_iff_ne]
  · rw [weekday_addDays hv 7]
    have h7 : t.weekday < 7 := weekday_lt
    omega

/-- Witness for C6 at the valid date 2023-06-30. -/
theorem claim_c6_witness :
    Date.Valid ⟨2023, 6, 30⟩ ∧
    (addDays ⟨2023, 6, 30⟩ 7).weekday = Date.weekday ⟨2023, 6, 30⟩ :=
  ⟨by decide, (claim_c6_last_workday_of_month ⟨2023, 6, 30⟩ (by decide)).2.1⟩

/-- C1: for every registry of callably-checked rules and every date, the run
loop's output for that date is exactly the rendered message of the first
enabled matching rule in registry order (`List.find?`), and the empty output
when no enabled rule matches; the outer loop then continues with the
remaining dates. -/
theorem claim_c1_first_match (insts : List TimeMap) (val : Date) (dates : List Date)
    (h : allCallable insts = true) :
    runDate insts val =
      some (match insts.find? (fun tm => ruleMatches tm val) with
            | some tm => [renderMessage tm.message val]
            | none => []) ∧
    runAll insts (val :: dates) =
      (runDate insts val).bind (fun out => (runAll insts dates).map (fun more => out ++ more)) := by
  refine ⟨?_, rfl⟩
  induction insts with
  | nil => rfl
  | cons tm rest ih =>
      have hall : tm.check.isCallable = true ∧ allCallable rest = true := by
        simpa [allCallable] using h
      obtain ⟨r, hr⟩ := applyTo_of_isCallable tm.check val hall.1
      by_cases hE : tm.enabled
      · by_cases hT : r.truthy
        · have hm : ruleMatches tm val = true := by
            simp [ruleMatches, hE, checkTruthy, hr, hT]
          simp [runDate, TimeMap.call, hE, hr, hT, List.find?, hm]
        · have hm : ruleMatches tm val = false := by
            simp [ruleMatches, checkTruthy, hr, hT]
          simp [runDate, TimeMap.call, hE, hr, hT, List.find?, hm, ih hall.2]
      · have hm : ruleMatches tm val = false := by
          simp [ruleMatches, hE]
        simp [runDate, TimeMap.call, hE, List.find?, hm, ih hall.2]

/-- Witness for C1 at the shipped main registry and the date 2023-06-30. -/
theorem claim_c1_witness :
    allCallable mainInstances = true ∧
    runDate mainInstances ⟨2023, 6, 30⟩ =
      some (match mainInstances.find? (fun tm => ruleMatches tm ⟨2023, 6, 30⟩) with
            | some tm => [renderMessage tm.message ⟨2023, 6, 30⟩]
            | none => []) :=
  ⟨by decide, (claim_c1_first_match mainInstances ⟨2023, 6, 30⟩ [] (by decide)).1⟩
